import Mathlib

/-!
Verification of the hatchery reservation/availability engine against its
natural-language specification.

The embedding translates the Python source (Django ORM calls become pure
operations over an explicit list-of-rows store):
- `src/core/methods.py` : `machine_available` and `_get_person_for_user`
- `src/hatchery/pct/models.py` : `Person.clean` / `Person.save`
- `src/hatchery/pct/methods.py` : `_add_person` and the add wrappers
- `src/hatchery/pct/management/commands/load_people.py` : per-row create/update

Timestamps are modelled as `Int` (any linearly ordered instant type works for
the comparisons the code performs). The Django field named `end` is a Lean
keyword, so the embedding renames it `stop`; `self` rows keyed by primary key
become list entries.
-/

namespace Hatchery

/-- Machine row, as far as `machine_available` uses it: only the primary key
takes part in the query filter (`Reservation.objects.filter(machine=machine_obj)`
compares by pk). The Machine model itself lives in the `cmr` app, outside the
provided sources. -/
structure Machine where
  id : Nat
deriving DecidableEq, Repr

/-- Reservation row, with the fields `machine_available` reads:
`id`, `person_email`, `start`, `end` (here `stop`), and the foreign key
`machine` stored as the machine primary key. -/
structure Reservation where
  id : Nat
  machine : Nat
  person_email : String
  start : Int
  stop : Int
deriving DecidableEq, Repr

/-- Half-open interval window, as in the spec data model (section 3). -/
structure Interval where
  start : Int
  stop : Int
deriving DecidableEq, Repr

/-- Overlap predicate as the source query spells it inline:
`start__lt=end, end__gt=start`, i.e. `a.start < b.end and b.start < a.end`. -/
def overlaps (a b : Interval) : Bool :=
  decide (a.start < b.stop) && decide (b.start < a.stop)

/-- Filter condition of the `Reservation.objects.filter(machine=machine_obj,
start__lt=end, end__gt=start)` query in `machine_available`: the reservation
belongs to the machine and its interval strictly overlaps the window. -/
def reservationConflicts (mobj : Machine) (s e : Int) (r : Reservation) : Bool :=
  r.machine == mobj.id && decide (r.start < e) && decide (r.stop > s)

/-- Boolean form of `machine_available` (include_conflict=False):
`not Reservation.objects.filter(...).exists()`. -/
def machine_available (db : List Reservation) (mobj : Machine) (s e : Int) : Bool :=
  !(db.any (reservationConflicts mobj s e))

/-- Conflict summary row produced by
`.values("id", "person_email", "start", "end")`. -/
structure ConflictSummary where
  id : Nat
  person_email : String
  start : Int
  stop : Int
deriving DecidableEq, Repr

/-- Result record of `machine_available` with include_conflict=True. -/
structure AvailabilityResult where
  available : Bool
  conflict : Option ConflictSummary
deriving DecidableEq, Repr

/-- First element of the list after a stable sort on `start`: the embedding of
`.order_by("start").first()` over the filtered rows, with ties resolved to the
earliest stored row (the stable tie-break). -/
def firstByStart : List Reservation → Option Reservation
  | [] => none
  | r :: rs =>
    match firstByStart rs with
    | none => some r
    | some b => if b.start < r.start then some b else some r

/-- Projection of a reservation row to the summary columns. -/
def summarize (r : Reservation) : ConflictSummary :=
  { id := r.id, person_email := r.person_email, start := r.start, stop := r.stop }

/-- Record form of `machine_available` (include_conflict=True): computes
`conflict_exists` with the same filter, then fetches the earliest overlapping
reservation ordered by `start` and projects the summary columns. -/
def machine_available_full (db : List Reservation) (mobj : Machine) (s e : Int) :
    AvailabilityResult :=
  let conflict_exists := db.any (reservationConflicts mobj s e)
  if conflict_exists then
    { available := false
      conflict := (firstByStart (db.filter (reservationConflicts mobj s e))).map summarize }
  else
    { available := true, conflict := none }

/-- Designation of a machine at the call site of `machine_available`: the
source accepts a Machine instance or a bare primary key
(`Union[Machine, int]`). -/
inductive MachineRef where
  | inst (m : Machine)
  | byId (i : Nat)
deriving DecidableEq, Repr

/-- Resolution step at the top of `machine_available`: an instance is used as
given, a bare id goes through `Machine.objects.get(pk=machine)`, which fails
(DoesNotExist) when no row matches; failure is `none`. -/
def resolveMachine (machines : List Machine) : MachineRef → Option Machine
  | .inst m => some m
  | .byId i => machines.find? (fun m => m.id == i)

/-- Boolean `machine_available` including the instance-or-id resolution. -/
def machine_available_ref (machines : List Machine) (db : List Reservation)
    (ref : MachineRef) (s e : Int) : Option Bool :=
  (resolveMachine machines ref).map (fun mobj => machine_available db mobj s e)

/-- include_conflict=True `machine_available` including the resolution. -/
def machine_available_ref_full (machines : List Machine) (db : List Reservation)
    (ref : MachineRef) (s e : Int) : Option AvailabilityResult :=
  (resolveMachine machines ref).map (fun mobj => machine_available_full db mobj s e)

/-- Modelled from the spec: the role constants of `hatchery.core.constants`
(the module is referenced by the sources but absent from them). Section 3 of
the spec lists the roles as {User, Collaborator, Team Member, Team Lead,
Staff}. -/
def ROLE_USER : String := "User"

/-- Modelled from the spec: role constant (see `ROLE_USER`). -/
def ROLE_COLLABORATOR : String := "Collaborator"

/-- Modelled from the spec: role constant (see `ROLE_USER`). -/
def ROLE_TEAM_MEMBER : String := "Team Member"

/-- Modelled from the spec: role constant (see `ROLE_USER`). -/
def ROLE_STAFF : String := "Staff"

/-- Modelled from the spec: role constant (see `ROLE_USER`). -/
def ROLE_TEAM_LEAD : String := "Team Lead"

/-- Modelled from the spec: `const.ROLES`, the valid role choices. -/
def ROLES : List String :=
  [ROLE_USER, ROLE_COLLABORATOR, ROLE_TEAM_MEMBER, ROLE_TEAM_LEAD, ROLE_STAFF]

/-- Modelled from the spec: `const.TEAM_LEAD_ELIGIBLE_ROLE`, the one role the
`is_team_lead` flag is valid for (spec section 3: valid only when role = Team
Member). -/
def TEAM_LEAD_ELIGIBLE_ROLE : String := ROLE_TEAM_MEMBER

/-- Person row from `pct/models.py`, with the fields the claims touch (the
optional Django `user` link and auto pk are not used by any claim). -/
structure Person where
  first_name : String
  last_name : String
  email : String
  role : String
  is_team_lead : Bool
deriving DecidableEq, Repr

/-- Embedding of `Person.clean`: raises ValidationError when the Team Lead
flag is set and the role is not Team Member. -/
def Person.clean (p : Person) : Except String Unit :=
  if p.is_team_lead && p.role != TEAM_LEAD_ELIGIBLE_ROLE then
    .error "Team Lead can only be set when role is Team Member."
  else
    .ok ()

/-- Embedding of Django `full_clean` on a Person: field validation first (the
`role` CharField declares `choices=const.ROLES`, so a role outside the list is
rejected; email-format validation is orthogonal to every claim and omitted),
then the model `clean`. -/
def Person.full_clean (p : Person) : Except String Unit :=
  if p.role ∈ ROLES then p.clean
  else .error "Value is not a valid choice."

/-- Embedding of the overridden `Person.save`: runs `full_clean`, then
persists. The store is a list of rows; `email` is declared unique, so persist
is modelled as replace-any-row-with-this-email-then-append (covering both the
insert of a fresh Person and the update-in-place of `load_people`, which keeps
the email fixed). -/
def Person.save (p : Person) (people : List Person) : Except String (List Person) :=
  match p.full_clean with
  | .error e => .error e
  | .ok _ => .ok (people.filter (fun q => q.email != p.email) ++ [p])

/-- Embedding of `pct.methods._add_person`: explicit role check, construct
the Person, `full_clean`, then `save`. Returns the new store and the created
row. -/
def _add_person (people : List Person) (first_name last_name email role : String)
    (is_team_lead : Bool) : Except String (List Person × Person) :=
  if role ∈ ROLES then
    let person : Person :=
      { first_name := first_name, last_name := last_name, email := email
        role := role, is_team_lead := is_team_lead }
    match person.full_clean with
    | .error e => .error e
    | .ok _ =>
      match person.save people with
      | .error e => .error e
      | .ok people2 => .ok (people2, person)
  else .error "Invalid role"

/-- Embedding of `pct.methods.add_user`. -/
def add_user (people : List Person) (fn ln em : String) :
    Except String (List Person × Person) :=
  _add_person people fn ln em ROLE_USER false

/-- Embedding of `pct.methods.add_collaborator`. -/
def add_collaborator (people : List Person) (fn ln em : String) :
    Except String (List Person × Person) :=
  _add_person people fn ln em ROLE_COLLABORATOR false

/-- Embedding of `pct.methods.add_team_member`. -/
def add_team_member (people : List Person) (fn ln em : String) (is_team_lead : Bool) :
    Except String (List Person × Person) :=
  _add_person people fn ln em ROLE_TEAM_MEMBER is_team_lead

/-- Embedding of `pct.methods.add_staff`. -/
def add_staff (people : List Person) (fn ln em : String) :
    Except String (List Person × Person) :=
  _add_person people fn ln em ROLE_STAFF false

/-- Embedding of `pct.methods.add_team_lead`. -/
def add_team_lead (people : List Person) (fn ln em : String) :
    Except String (List Person × Person) :=
  add_team_member people fn ln em true

/-- One parsed CSV row of the `load_people` management command. The
truthiness parse of the `is_team_lead` column has already happened
(`in {"1","true","yes","y"}`); the certifications/training columns do not
touch Person rows and are not modelled. -/
structure CsvRow where
  first_name : String
  last_name : String
  email : String
  role : String
  is_team_lead : Bool
deriving DecidableEq, Repr

/-- Embedding of the per-row Person handling of `load_people.handle` in its
writing (non-dry-run) form. A row with a role outside `ROLES` is skipped. A
fresh email goes through the `ROLE_TO_FUNC` create path (the mapping has
entries for User, Collaborator, Team Member and Staff; any other valid role
raises an uncaught KeyError before any write, leaving the store unchanged).
An existing email is updated in place, with `is_team_lead` forced to False
for non-Team-Member roles, then validated and saved. A ValidationError is
reported and the row skipped, leaving the store unchanged. -/
def loadPeopleRow (people : List Person) (row : CsvRow) : List Person :=
  if row.role ∈ ROLES then
    match people.find? (fun p => p.email == row.email) with
    | none =>
      if row.role == ROLE_TEAM_MEMBER then
        match add_team_member people row.first_name row.last_name row.email row.is_team_lead with
        | .ok (people2, _) => people2
        | .error _ => people
      else if row.role == ROLE_USER then
        match add_user people row.first_name row.last_name row.email with
        | .ok (people2, _) => people2
        | .error _ => people
      else if row.role == ROLE_COLLABORATOR then
        match add_collaborator people row.first_name row.last_name row.email with
        | .ok (people2, _) => people2
        | .error _ => people
      else if row.role == ROLE_STAFF then
        match add_staff people row.first_name row.last_name row.email with
        | .ok (people2, _) => people2
        | .error _ => people
      else people
    | some person =>
      let person2 : Person :=
        { person with
          first_name := row.first_name
          last_name := row.last_name
          role := row.role
          is_team_lead := if row.role == ROLE_TEAM_MEMBER then row.is_team_lead else false }
      match person2.save people with
      | .ok people2 => people2
      | .error _ => people
  else people

/-- The Person-boundary invariant of spec section 3: the `is_team_lead` flag
is set only on Team Members. -/
def teamLeadInv (p : Person) : Prop :=
  p.is_team_lead = true → p.role = ROLE_TEAM_MEMBER

/-- Django auth user as `_get_person_for_user` sees it: only the email
attribute is read (`getattr(user, "email", None)`); a missing attribute is
`none`. -/
structure User where
  email : Option String
deriving DecidableEq, Repr

/-- Summary dict returned by `_get_person_for_user`. -/
structure PersonSummary where
  name : String
  type : String
deriving DecidableEq, Repr

/-- Embedding of `core.methods._get_person_for_user`: returns none on a
missing or empty email (`if not email`), looks the Person up by email
(`Person.objects.get`; email is unique, DoesNotExist becomes none), and
builds the summary, reporting type Team Lead for a Team Member with the
flag set. A pure read: the store is only consumed, never returned. -/
def _get_person_for_user (people : List Person) (user : User) : Option PersonSummary :=
  match user.email with
  | none => none
  | some email =>
    if email == "" then none
    else
      match people.find? (fun p => p.email == email) with
      | none => none
      | some person =>
        let person_type :=
          if person.role == "Team Member" && person.is_team_lead then "Team Lead"
          else person.role
        some { name := (person.first_name ++ " " ++ person.last_name).trim
               type := person_type }

/-- The returned reservation is the first row attaining the minimal `start`:
it occurs in the list, everything strictly before it has a larger `start`, and
nothing anywhere has a smaller one. -/
def isFirstMinByStart (l : List Reservation) (r : Reservation) : Prop :=
  ∃ l₁ l₂, l = l₁ ++ r :: l₂ ∧ (∀ a ∈ l₁, r.start < a.start) ∧ (∀ a ∈ l, r.start ≤ a.start)

/-! Helper lemmas shared by the claim theorems. -/

theorem firstByStart_cons_isSome (a : Reservation) (l : List Reservation) :
    ∃ r, firstByStart (a :: l) = some r := by
  cases h : firstByStart l with
  | none => exact ⟨a, by simp [firstByStart, h]⟩
  | some b =>
    by_cases hb : b.start < a.start
    · exact ⟨b, by simp [firstByStart, h, hb]⟩
    · exact ⟨a, by simp [firstByStart, h, hb]⟩

theorem firstByStart_spec (l : List Reservation) (r : Reservation)
    (h : firstByStart l = some r) : isFirstMinByStart l r := by
  induction l generalizing r with
  | nil => simp [firstByStart] at h
  | cons a l ih =>
    rw [firstByStart] at h
    cases hl : firstByStart l with
    | none =>
      rw [hl] at h
      cases l with
      | nil =>
        refine ⟨[], [], ?_, by simp, ?_⟩
        · simpa using h
        · intro x hx
          simp at h hx
          simp [h, hx]
      | cons b l2 => obtain ⟨c, hc⟩ := firstByStart_cons_isSome b l2; simp [hc] at hl
    | some b =>
      rw [hl] at h
      obtain ⟨l₁, l₂, hdec, hbefore, hmin⟩ := ih b hl
      by_cases hb : b.start < a.start
      · simp [hb] at h
        subst h
        refine ⟨a :: l₁, l₂, by simp [hdec], ?_, ?_⟩
        · intro x hx
          rcases List.mem_cons.mp hx with hx | hx
          · exact hx ▸ hb
          · exact hbefore x hx
        · intro x hx
          rcases List.mem_cons.mp hx with hx | hx
          · exact hx ▸ le_of_lt hb
          · exact hmin x hx
      · simp [hb] at h
        subst h
        refine ⟨[], l, by simp, by simp, ?_⟩
        intro x hx
        rcases List.mem_cons.mp hx with hx | hx
        · simp [hx]
        · exact le_trans (not_lt.mp hb) (hmin x hx)

theorem any_iff_filter_ne_nil (l : List Reservation) (p : Reservation → Bool) :
    l.any p = true ↔ l.filter p ≠ [] := by
  rw [List.any_eq_true]
  rw [Ne, List.filter_eq_nil_iff]
  constructor
  · rintro ⟨x, hx, hp⟩ hall
    exact hall x hx hp
  · intro h
    by_contra hcon
    push_neg at hcon
    exact h (fun a ha hp => hcon a ha hp)

theorem full_clean_ok_inv (p : Person) (h : p.full_clean = .ok ()) :
    teamLeadInv p := by
  intro hlead
  rw [Person.full_clean] at h
  split at h
  · rw [Person.clean] at h
    split at h
    · exact absurd h (by simp)
    · rename_i hcond
      rw [hlead] at hcond
      simp [TEAM_LEAD_ELIGIBLE_ROLE] at hcond
      exact hcond
  · exact absurd h (by simp)

theorem save_ok_parts (p : Person) (people people2 : List Person)
    (h : p.save people = .ok people2) :
    p.full_clean = .ok () ∧
      people2 = people.filter (fun q => q.email != p.email) ++ [p] := by
  rw [Person.save] at h
  split at h
  · exact absurd h (by simp)
  · rename_i u heq
    cases u
    exact ⟨heq, by simpa using h.symm⟩

theorem save_preserves_inv (p : Person) (people people2 : List Person)
    (h : p.save people = .ok people2) (hall : ∀ q ∈ people, teamLeadInv q) :
    ∀ q ∈ people2, teamLeadInv q := by
  obtain ⟨hclean, hstore⟩ := save_ok_parts p people people2 h
  intro q hq
  rw [hstore] at hq
  rcases List.mem_append.mp hq with hq | hq
  · exact hall q (List.mem_filter.mp hq).1
  · simp at hq
    exact hq ▸ full_clean_ok_inv p hclean

theorem add_person_ok_parts (people people2 : List Person)
    (fn ln em role : String) (lead : Bool) (p : Person)
    (h : _add_person people fn ln em role lead = .ok (people2, p)) :
    p = { first_name := fn, last_name := ln, email := em
          role := role, is_team_lead := lead }
    ∧ p.save people = .ok people2 := by
  simp only [_add_person] at h
  split at h
  · split at h
    · exact absurd h (by simp)
    · split at h
      · exact absurd h (by simp)
      · rename_i heq
        simp at h
        exact ⟨h.2.symm, h.2 ▸ h.1 ▸ heq⟩
  · exact absurd h (by simp)

theorem add_person_preserves_inv (people people2 : List Person)
    (fn ln em role : String) (lead : Bool) (p : Person)
    (h : _add_person people fn ln em role lead = .ok (people2, p))
    (hall : ∀ q ∈ people, teamLeadInv q) :
    teamLeadInv p ∧ ∀ q ∈ people2, teamLeadInv q := by
  obtain ⟨hp, hsave⟩ := add_person_ok_parts people people2 fn ln em role lead p h
  obtain ⟨hclean, _⟩ := save_ok_parts p people people2 hsave
  exact ⟨full_clean_ok_inv p hclean, save_preserves_inv p people people2 hsave hall⟩

theorem loadPeopleRow_preserves_inv (people : List Person) (row : CsvRow)
    (hall : ∀ q ∈ people, teamLeadInv q) :
    ∀ q ∈ loadPeopleRow people row, teamLeadInv q := by
  intro q hq
  simp only [loadPeopleRow] at hq
  split at hq
  case isFalse => exact hall q hq
  case isTrue =>
    split at hq
    case h_1 =>
      split at hq
      · split at hq
        · rename_i heq
          exact (add_person_preserves_inv _ _ _ _ _ _ _ _ heq hall).2 q hq
        · exact hall q hq
      · split at hq
        · split at hq
          · rename_i heq
            exact (add_person_preserves_inv _ _ _ _ _ _ _ _ heq hall).2 q hq
          · exact hall q hq
        · split at hq
          · split at hq
            · rename_i heq
              exact (add_person_preserves_inv _ _ _ _ _ _ _ _ heq hall).2 q hq
            · exact hall q hq
          · split at hq
            · split at hq
              · rename_i heq
                exact (add_person_preserves_inv _ _ _ _ _ _ _ _ heq hall).2 q hq
              · exact hall q hq
            · exact hall q hq
    case h_2 =>
      split at hq
      · rename_i heq
        exact save_preserves_inv _ people _ heq hall q hq
      · exact hall q hq

/-! Claim theorems. -/

/-- C1: the availability query counts an existing reservation r on the
queried machine as a conflict exactly when r.start < end and r.end > start;
in particular a reservation merely touching the window at an endpoint is
never a conflict. -/
theorem C1_conflict_iff_strict_overlap (mobj : Machine) (s e : Int)
    (r : Reservation) (db : List Reservation)
    (hm : r.machine = mobj.id) (hr : r ∈ db) :
    (r ∈ db.filter (reservationConflicts mobj s e) ↔ r.start < e ∧ r.stop > s)
    ∧ ((r.stop = s ∨ r.start = e) → r ∉ db.filter (reservationConflicts mobj s e)) := by
  have hiff : r ∈ db.filter (reservationConflicts mobj s e) ↔ r.start < e ∧ r.stop > s := by
    rw [List.mem_filter]
    simp [reservationConflicts, hm, hr]
  refine ⟨hiff, ?_⟩
  intro htouch hmem
  have := hiff.mp hmem
  rcases htouch with h | h <;> omega

/-- C3: the boolean availability check is true exactly when the list of
existing reservations on the machine that overlap the queried window is
empty. -/
theorem C3_available_iff_no_conflicts (db : List Reservation) (mobj : Machine)
    (s e : Int) :
    machine_available db mobj s e = true ↔
      db.filter (reservationConflicts mobj s e) = [] := by
  rw [machine_available, Bool.not_eq_true']
  rw [← Bool.not_eq_true]
  rw [any_iff_filter_ne_nil]
  simp

/-- C4: worked boundary example, times in minutes of the day. A machine holds
one reservation over 10:00-12:00 (600-720). Requesting 11:00-13:00 (660-780)
is unavailable with the conflict reporting start 10:00 and end 12:00;
requesting 12:00-13:00 (720-780) and 09:00-10:00 (540-600) are both
available. -/
theorem C4_boundary_example :
    machine_available_full [⟨7, 1, "bob@example.com", 600, 720⟩] ⟨1⟩ 660 780 =
      { available := false, conflict := some ⟨7, "bob@example.com", 600, 720⟩ }
    ∧ machine_available_full [⟨7, 1, "bob@example.com", 600, 720⟩] ⟨1⟩ 720 780 =
      { available := true, conflict := none }
    ∧ machine_available_full [⟨7, 1, "bob@example.com", 600, 720⟩] ⟨1⟩ 540 600 =
      { available := true, conflict := none } := by
  refine ⟨by decide, by decide, by decide⟩

/-- C5: the overlap predicate is symmetric, and the conflict test of the
availability query is exactly that predicate applied to the reservation
interval and the queried window, in either order. -/
theorem C5_overlaps_symmetric :
    (∀ a b : Interval, overlaps a b = overlaps b a)
    ∧ (∀ (mobj : Machine) (s e : Int) (r : Reservation), r.machine = mobj.id →
        reservationConflicts mobj s e r = overlaps ⟨r.start, r.stop⟩ ⟨s, e⟩
        ∧ reservationConflicts mobj s e r = overlaps ⟨s, e⟩ ⟨r.start, r.stop⟩) := by
  constructor
  · intro a b
    simp only [overlaps]
    exact Bool.and_comm _ _
  · intro mobj s e r hm
    constructor
    · simp [reservationConflicts, overlaps, hm]
    · simp [reservationConflicts, overlaps, hm]
      exact Bool.and_comm _ _

/-- C2: the include_conflict=True record has conflict = none exactly when
available is true, and when unavailable the conflict summary carries exactly
the id, person_email, start and end of the earliest overlapping reservation,
ties on start resolved to the first stored row (stable, deterministic). -/
theorem C2_include_conflict_contract (db : List Reservation) (mobj : Machine)
    (s e : Int) :
    ((machine_available_full db mobj s e).conflict = none ↔
      (machine_available_full db mobj s e).available = true)
    ∧ ((machine_available_full db mobj s e).available = false →
        ∃ r, isFirstMinByStart (db.filter (reservationConflicts mobj s e)) r ∧
          (machine_available_full db mobj s e).conflict =
            some { id := r.id, person_email := r.person_email
                   start := r.start, stop := r.stop }) := by
  cases hany : db.any (reservationConflicts mobj s e) with
  | false => simp [machine_available_full, hany]
  | true =>
    have hne : db.filter (reservationConflicts mobj s e) ≠ [] :=
      (any_iff_filter_ne_nil db _).mp hany
    obtain ⟨a, l, hl⟩ : ∃ a l, db.filter (reservationConflicts mobj s e) = a :: l := by
      cases hfl : db.filter (reservationConflicts mobj s e) with
      | nil => exact absurd hfl hne
      | cons a l => exact ⟨a, l, rfl⟩
    obtain ⟨r, hr⟩ := firstByStart_cons_isSome a l
    have hr2 : firstByStart (db.filter (reservationConflicts mobj s e)) = some r := by
      rw [hl]; exact hr
    have hfull : machine_available_full db mobj s e =
        { available := false
          conflict := (firstByStart (db.filter (reservationConflicts mobj s e))).map summarize } := by
      simp [machine_available_full, hany]
    rw [hfull]
    constructor
    · simp [hr2]
    · intro _
      exact ⟨r, firstByStart_spec _ r hr2, by simp [hr2, summarize]⟩

/-- C6 counterexample: the claim says a window with start ≥ end is rejected
with InvalidInterval before any conflict evaluation, but `machine_available`
performs no interval validation: at the degenerate window start = end = 5 it
returns an ordinary boolean whose value depends on the store, reporting a
conflict when a reservation strictly contains the instant. -/
theorem C6_counterexample :
    (5 : Int) ≥ 5
    ∧ machine_available [⟨1, 1, "bob@example.com", 0, 10⟩] ⟨1⟩ 5 5 = false
    ∧ machine_available [] ⟨1⟩ 5 5 = true := by
  refine ⟨by decide, by decide, by decide⟩

/-- C6 amended: `machine_available` does not validate the interval; even for
start ≥ end it evaluates the same overlap query against the store, reporting
available exactly when no reservation on the machine satisfies
r.start < end and r.end > start. -/
theorem C6_degenerate_window_still_queried (db : List Reservation)
    (mobj : Machine) (s e : Int) (h : e ≤ s) :
    machine_available db mobj s e = true ↔
      ∀ r ∈ db, ¬(r.machine = mobj.id ∧ r.start < e ∧ s < r.stop) := by
  rw [machine_available, Bool.not_eq_true', List.any_eq_false]
  constructor
  · intro hall r hrdb hc
    have := hall r hrdb
    simp [reservationConflicts, hc.1, hc.2.1, hc.2.2] at this
  · intro hall r hrdb
    have := hall r hrdb
    simp only [reservationConflicts]
    simp only [not_and] at this
    by_cases h1 : r.machine = mobj.id
    · by_cases h2 : r.start < e
      · have h3 := this h1 h2
        simp [h1, h2, h3]
      · simp [h2]
    · simp [h1]

/-- C10: `machine_available` does not depend on how the machine is
designated. When a Machine row matching an id exists, calling with the
resolved instance and calling with the bare id give equal results, in the
boolean and the include_conflict=True form alike. -/
theorem C10_instance_vs_id (machines : List Machine) (db : List Reservation)
    (i : Nat) (m : Machine) (s e : Int)
    (hm : machines.find? (fun mm => mm.id == i) = some m) :
    machine_available_ref machines db (.inst m) s e =
      machine_available_ref machines db (.byId i) s e
    ∧ machine_available_ref_full machines db (.inst m) s e =
      machine_available_ref_full machines db (.byId i) s e := by
  constructor
  · simp [machine_available_ref, resolveMachine, hm]
  · simp [machine_available_ref_full, resolveMachine, hm]

/-- C8: the Person-boundary invariant. A direct save of a Person with the
Team Lead flag under any role other than Team Member is rejected; a
successful save, `_add_person`, or CSV-import row each leave every stored
Person satisfying is_team_lead → role = Team Member, so no reachable store
state violates the invariant. -/
theorem C8_team_lead_flag_invariant :
    (∀ (p : Person) (people : List Person), p.is_team_lead = true →
        p.role ≠ ROLE_TEAM_MEMBER → ∀ people2, p.save people ≠ .ok people2)
    ∧ (∀ (people people2 : List Person) (p : Person),
        p.save people = .ok people2 → (∀ q ∈ people, teamLeadInv q) →
          ∀ q ∈ people2, teamLeadInv q)
    ∧ (∀ (people people2 : List Person) (fn ln em role : String) (lead : Bool)
        (p : Person), _add_person people fn ln em role lead = .ok (people2, p) →
          teamLeadInv p ∧
            ((∀ q ∈ people, teamLeadInv q) → ∀ q ∈ people2, teamLeadInv q))
    ∧ (∀ (people : List Person) (row : CsvRow),
        (∀ q ∈ people, teamLeadInv q) → ∀ q ∈ loadPeopleRow people row, teamLeadInv q) := by
  refine ⟨?_, ?_, ?_, ?_⟩
  · intro p people hlead hrole people2 hok
    exact hrole (full_clean_ok_inv p (save_ok_parts p people people2 hok).1 hlead)
  · intro people people2 p h hall
    exact save_preserves_inv p people people2 h hall
  · intro people people2 fn ln em role lead p h
    obtain ⟨_, hsave⟩ := add_person_ok_parts people people2 fn ln em role lead p h
    exact ⟨full_clean_ok_inv p (save_ok_parts p people people2 hsave).1,
      fun hall => save_preserves_inv p people people2 hsave hall⟩
  · intro people row hall
    exact loadPeopleRow_preserves_inv people row hall

/-- Witness for C8: a Staff Person with the Team Lead flag set does not save. -/
theorem C8_witness :
    Person.save ⟨"A", "B", "a@b.c", "Staff", true⟩ [] ≠ Except.ok [] :=
  C8_team_lead_flag_invariant.1 ⟨"A", "B", "a@b.c", "Staff", true⟩ [] rfl (by decide) []

/-- C9: person lookup by email is a pure read (the store is only consumed;
the function returns no store). It returns none when the user has no email
or no Person matches; when a Person with the email exists it returns the
summary of the first matching row, with name first-space-last trimmed and
type reporting Team Lead exactly for a Team Member with the flag set. -/
theorem C9_person_lookup_contract (people : List Person) (user : User) :
    ((user.email = none ∨ user.email = some "") →
      _get_person_for_user people user = none)
    ∧ (∀ em, user.email = some em → (∀ p ∈ people, p.email ≠ em) →
        _get_person_for_user people user = none)
    ∧ (∀ em p, user.email = some em → em ≠ "" →
        people.find? (fun q => q.email == em) = some p →
          _get_person_for_user people user =
            some { name := (p.first_name ++ " " ++ p.last_name).trim
                   type := if p.role = "Team Member" ∧ p.is_team_lead = true
                           then "Team Lead" else p.role })
    ∧ (∀ em, user.email = some em → em ≠ "" → (∃ p ∈ people, p.email = em) →
        (_get_person_for_user people user).isSome = true)
    ∧ (∀ s, _get_person_for_user people user = some s →
        ∃ p ∈ people, user.email = some p.email ∧
          s.name = (p.first_name ++ " " ++ p.last_name).trim ∧
          s.type = if p.role = "Team Member" ∧ p.is_team_lead = true
                   then "Team Lead" else p.role) := by
  have hpos : ∀ em p, user.email = some em → em ≠ "" →
      people.find? (fun q => q.email == em) = some p →
        _get_person_for_user people user =
          some { name := (p.first_name ++ " " ++ p.last_name).trim
                 type := if p.role = "Team Member" ∧ p.is_team_lead = true
                         then "Team Lead" else p.role } := by
    intro em p hem he hfind
    rw [_get_person_for_user, hem]
    simp only [he, if_false, beq_iff_eq, hfind]
    simp [Bool.and_eq_true, beq_iff_eq]
  refine ⟨?_, ?_, hpos, ?_, ?_⟩
  · rintro (h | h) <;> simp [_get_person_for_user, h]
  · intro em hem hnone
    have hfind : people.find? (fun p => p.email == em) = none :=
      List.find?_eq_none.mpr (fun p hp => by simpa using hnone p hp)
    by_cases he : em = ""
    · simp [_get_person_for_user, hem, he]
    · simp [_get_person_for_user, hem, he, hfind]
  · intro em hem he hmatch
    cases hfind : people.find? (fun q => q.email == em) with
    | none =>
      obtain ⟨p, hp, hpe⟩ := hmatch
      have := List.find?_eq_none.mp hfind p hp
      simp [hpe] at this
    | some p =>
      rw [hpos em p hem he hfind]
      rfl
  · intro s hs
    rw [_get_person_for_user] at hs
    split at hs
    · exact absurd hs (by simp)
    · rename_i em hem
      split at hs
      · exact absurd hs (by simp)
      · split at hs
        · exact absurd hs (by simp)
        · rename_i p hfind
          have hp : p ∈ people := List.mem_of_find?_eq_some hfind
          have hpe : p.email = em := by
            have := List.find?_some hfind
            simpa [beq_iff_eq] using this
          have hsum := Option.some.inj hs
          refine ⟨p, hp, by rw [hem, hpe], ?_, ?_⟩
          · rw [← hsum]
          · rw [← hsum]
            simp only [Bool.and_eq_true, beq_iff_eq]

/-- Witness for C9: on a concrete one-Person store, a missing email and a
non-matching email yield none, and the matching email yields the summary of
the stored Team Member with the flag set, reported as Team Lead. -/
theorem C9_witness :
    _get_person_for_user [⟨"Bob", "Smith", "bob@bc.edu", "Team Member", true⟩]
        ⟨none⟩ = none
    ∧ _get_person_for_user [⟨"Bob", "Smith", "bob@bc.edu", "Team Member", true⟩]
        ⟨some "x@y.z"⟩ = none
    ∧ _get_person_for_user [⟨"Bob", "Smith", "bob@bc.edu", "Team Member", true⟩]
        ⟨some "bob@bc.edu"⟩ =
        some ⟨("Bob" ++ " " ++ "Smith").trim, "Team Lead"⟩ := by
  refine ⟨?_, ?_, ?_⟩
  · exact (C9_person_lookup_contract _ _).1 (Or.inl rfl)
  · exact (C9_person_lookup_contract _ _).2.1 "x@y.z" rfl (by decide)
  · have h := (C9_person_lookup_contract
      [⟨"Bob", "Smith", "bob@bc.edu", "Team Member", true⟩]
      ⟨some "bob@bc.edu"⟩).2.2.1 "bob@bc.edu"
      ⟨"Bob", "Smith", "bob@bc.edu", "Team Member", true⟩ rfl (by decide) rfl
    rw [h]
    simp

/-- Witness for C1: the 10:00-12:00 reservation is counted as a conflict of
the 11:00-13:00 window. -/
theorem C1_witness :
    (⟨7, 1, "bob@example.com", 600, 720⟩ : Reservation) ∈
      List.filter (reservationConflicts ⟨1⟩ 660 780)
        [⟨7, 1, "bob@example.com", 600, 720⟩] :=
  (C1_conflict_iff_strict_overlap ⟨1⟩ 660 780 ⟨7, 1, "bob@example.com", 600, 720⟩
    [⟨7, 1, "bob@example.com", 600, 720⟩] rfl (by simp)).1.mpr (by decide)

/-- Witness for C2: on a store with one overlapping reservation the record
form reports a non-none conflict. -/
theorem C2_witness :
    (machine_available_full [⟨7, 1, "bob@example.com", 600, 720⟩] ⟨1⟩ 660 780).conflict
      ≠ none :=
  fun hnone =>
    absurd ((C2_include_conflict_contract
      [⟨7, 1, "bob@example.com", 600, 720⟩] ⟨1⟩ 660 780).1.mp hnone) (by decide)

/-- Witness for C3: the empty store has no conflicts, so the machine is
available. -/
theorem C3_witness : machine_available [] ⟨1⟩ 0 60 = true :=
  (C3_available_iff_no_conflicts [] ⟨1⟩ 0 60).mpr rfl

/-- Witness for C5: the conflict test on a concrete reservation equals the
overlap predicate with the window and the reservation interval swapped. -/
theorem C5_witness :
    reservationConflicts ⟨1⟩ 0 10 ⟨7, 1, "bob@example.com", 5, 15⟩ =
      overlaps ⟨0, 10⟩ ⟨5, 15⟩ :=
  (C5_overlaps_symmetric.2 ⟨1⟩ 0 10 ⟨7, 1, "bob@example.com", 5, 15⟩ rfl).2

/-- Witness for the amended C6: a degenerate window on an empty store is
reported available, through the same conflict query. -/
theorem C6_witness : machine_available [] ⟨1⟩ 5 5 = true :=
  (C6_degenerate_window_still_queried [] ⟨1⟩ 5 5 (le_refl 5)).mpr (by simp)

/-- Witness for C10: one machine store, id 3, empty reservation store. -/
theorem C10_witness :
    machine_available_ref [⟨3⟩] [] (.inst ⟨3⟩) 0 1 =
      machine_available_ref [⟨3⟩] [] (.byId 3) 0 1 :=
  (C10_instance_vs_id [⟨3⟩] [] 3 ⟨3⟩ 0 1 (by decide)).1

end Hatchery
